import Mathlib

namespace Sapphire

/-!
Verification of the sapphire message-dispatch pipeline (`monitor.go`).

The Go source is shallowly embedded below.  Strings are modelled as lists of
runes (`List Char`); all concrete data used by the theorems is ASCII, where Go's
byte-based lengths and slicing coincide with rune-based ones.  The two package
regexes (`flagsRegex`, `delim`) are embedded as hand-written scanners that
follow Go's RE2 leftmost-first (Perl-style) matching: alternatives are tried in
written order and quantifiers are greedy.  Go maps from strings to strings are
embedded as association lists with overwrite-on-insert.
-/

/-- Go regexp `\w` (ASCII word character). -/
def isWordChar (c : Char) : Bool := c.isAlphanum || c = '_'

/-- Go regexp character class `[\w-]`. -/
def isNameChar (c : Char) : Bool := isWordChar c || c = '-'

/-- Go regexp `\s`, i.e. `[\t\n\f\r ]`. -/
def isGoSpace (c : Char) : Bool :=
  c = ' ' || c = '\t' || c = '\n' || c = '\x0c' || c = '\r'

/-- The rune list of a string literal. -/
def str (s : String) : List Char := s.data

/-- Embedding of Go's `map[string]string`. -/
abbrev FlagMap := List (List Char × List Char)

/-- Go map assignment `m[k] = v`: overwrite the binding if the key is present. -/
def mapInsert : FlagMap → List Char → List Char → FlagMap
  | [], k, v => [(k, v)]
  | (k0, v0) :: rest, k, v =>
    if k0 = k then (k, v) :: rest else (k0, v0) :: mapInsert rest k v

/-- Go map lookup `m[k]`. -/
def mapLookup : FlagMap → List Char → Option (List Char)
  | [], _ => none
  | (k0, v0) :: rest, k => if k0 = k then some v0 else mapLookup rest k

/-!
The flag regex from `monitor.go`:

  `(?:--|—)(\w[\w-]+)(?:=(?:["]((?:[^"\\]|\\.)*)["]|[']((?:[^'\\]|\\.)*)[']|
   [“”]((?:[^“”\\]|\\.)*)[“”]|[‘’]((?:[^‘’\\]|\\.)*)[‘’]|([\w-]+)))?`

`scanQuoted` scans the body of a quoted value `((?:[^Q\\]|\\.)*)Q` for a
delimiter class `Q`: a backslash escapes the following character (but `.` does
not match a newline in RE2), any other character outside the class and not a
backslash is consumed verbatim, and a class character closes the value.  The
step taken at each position is forced, so this deterministic scan computes the
regex's backtracking search exactly.
-/

def scanQuoted (isDelim : Char → Bool) : List Char → Option (List Char × List Char)
  | [] => none
  | c :: rest =>
    if isDelim c then some ([], rest)
    else if c = '\\' then
      match rest with
      | [] => none
      | d :: rest2 =>
        if d = '\n' then none
        else
          match scanQuoted isDelim rest2 with
          | some (cap, r) => some (c :: d :: cap, r)
          | none => none
    else
      match scanQuoted isDelim rest with
      | some (cap, r) => some (c :: cap, r)
      | none => none

/-- One quoted alternative `Q body Q` of the value group. -/
def tryQuote (isDelim : Char → Bool) : List Char → Option (List Char × List Char)
  | [] => none
  | c :: rest => if isDelim c then scanQuoted isDelim rest else none

/-- The five value alternatives of the flag regex, tried in written order:
double-quoted, single-quoted, smart-double-quoted, smart-single-quoted, bare
`[\w-]+`.  Returns the alternative's index (0-4), the captured group and the
remaining input. -/
def matchValue (cs : List Char) : Option (Nat × List Char × List Char) :=
  match tryQuote (fun c => c = '"') cs with
  | some (cap, r) => some (0, cap, r)
  | none =>
  match tryQuote (fun c => c = Char.ofNat 39) cs with
  | some (cap, r) => some (1, cap, r)
  | none =>
  match tryQuote (fun c => c = '“' || c = '”') cs with
  | some (cap, r) => some (2, cap, r)
  | none =>
  match tryQuote (fun c => c = '‘' || c = '’') cs with
  | some (cap, r) => some (3, cap, r)
  | none =>
  match List.span isNameChar cs with
  | ([], _) => none
  | (v, r) => some (4, v, r)

/-- The capture groups `sub[2:]` of `FindStringSubmatch` (groups 2-6 of the
regex): a non-participating or empty group reads back as the empty string. -/
def subGroups : Option (Nat × List Char) → List (List Char)
  | none => [[], [], [], [], []]
  | some (i, cap) => List.set [[], [], [], [], []] i cap

/-- The flag-name group `(\w[\w-]+)`: greedy, at least two characters. -/
def matchName : List Char → Option (List Char × List Char)
  | [] => none
  | c :: rest =>
    if isWordChar c then
      match List.span isNameChar rest with
      | ([], _) => none
      | (run, r) => some (c :: run, r)
    else none

/-- Everything after the introducer: the name group followed by the optional
`(?:=value)?` group.  When `=` is present but no value alternative matches, the
optional group matches the empty string and the `=` stays in the text. -/
def matchAfterIntro (cs : List Char) :
    Option (List Char × List (List Char) × List Char) :=
  match matchName cs with
  | none => none
  | some (name, rest) =>
    match rest with
    | e :: vrest =>
      if e = '=' then
        match matchValue vrest with
        | some (i, cap, r) => some (name, subGroups (some (i, cap)), r)
        | none => some (name, subGroups none, rest)
      else some (name, subGroups none, rest)
    | [] => some (name, subGroups none, rest)

/-- A match of `flagsRegex` anchored at `c :: cs`: the introducer `(?:--|—)`
followed by the name and optional value. -/
def matchFlagAt (c : Char) (cs : List Char) :
    Option (List Char × List (List Char) × List Char) :=
  if c = '—' then matchAfterIntro cs
  else if c = '-' then
    match cs with
    | c2 :: rest => if c2 = '-' then matchAfterIntro rest else none
    | [] => none
  else none

/-- The loop over `sub[2:]` in the replacement callback (monitor.go:134-141):
the first non-empty group is stored and the loop breaks; an empty group stores
the flag's own name and the loop continues. -/
def flagLoop (name : List Char) : FlagMap → List (List Char) → FlagMap
  | flags, [] => flags
  | flags, elem :: rest =>
    if elem ≠ [] then mapInsert flags name elem
    else flagLoop name (mapInsert flags name name) rest

/-- Embedding of `flagsRegex.ReplaceAllStringFunc(content, fn)` together with the `flags`
map the callback fills in: matches are found leftmost-first, non-overlapping,
processed left to right, and each full match is replaced by the empty string.
The fuel argument only bounds the recursion; every step consumes at least one
character, so `length + 1` fuel is never exhausted (see
`extractLoopF_fuel_irrelevant`). -/
def extractLoopF : Nat → FlagMap → List Char → FlagMap × List Char
  | 0, flags, cs => (flags, cs)
  | _ + 1, flags, [] => (flags, [])
  | fuel + 1, flags, c :: rest =>
    match matchFlagAt c rest with
    | some (name, groups, rest2) => extractLoopF fuel (flagLoop name flags groups) rest2
    | none =>
      let p := extractLoopF fuel flags rest
      (p.1, c :: p.2)

/-- Flag extraction over a whole message: the `flags` map and the text with
every match removed (monitor.go:131-143 before whitespace repair). -/
def extractFlags (cs : List Char) : FlagMap × List Char :=
  extractLoopF (cs.length + 1) [] cs

/-- Embedding of `delim.ReplaceAllString(s, "$1")` where `delim = (\s)(?:\s)+`: every run of
two or more whitespace characters is replaced by the run's first character.
Fuel as in `extractLoopF`; every step consumes at least one character. -/
def collapseWSF : Nat → List Char → List Char
  | 0, cs => cs
  | _ + 1, [] => []
  | _ + 1, [c] => [c]
  | fuel + 1, c :: d :: rest =>
    if isGoSpace c then
      if isGoSpace d then
        c :: collapseWSF fuel (List.dropWhile isGoSpace (d :: rest))
      else c :: collapseWSF fuel (d :: rest)
    else c :: collapseWSF fuel (d :: rest)

def collapseWS (cs : List Char) : List Char := collapseWSF (cs.length + 1) cs

/-- Embedding of `strings.Trim(s, " ")`: leading and trailing space characters (only the
space character, not other whitespace) are removed. -/
def trimSpaces (cs : List Char) : List Char :=
  ((cs.dropWhile (· = ' ')).reverse.dropWhile (· = ' ')).reverse

/-- Embedding of `strings.Split(s, " ")`: splits on each single space; the result always has
at least one element, and `Split("", " ") = [""]`. -/
def splitSpaces : List Char → List (List Char)
  | [] => [[]]
  | c :: rest =>
    match splitSpaces rest with
    | [] => [[]]
    | t :: ts => if c = ' ' then [] :: t :: ts else (c :: t) :: ts

/-- Embedding of `strings.ToLower` (the concrete data of every theorem below is ASCII). -/
def lowerStr (cs : List Char) : List Char := cs.map Char.toLower

/-- Embedding of `strings.HasPrefix(s, p)` (first argument is the candidate prefix `p`). -/
def hasPrefixL : List Char → List Char → Bool
  | [], _ => true
  | _ :: _, [] => false
  | p :: ps, c :: cs => p = c && hasPrefixL ps cs

/-- The fields of `discordgo.MessageCreate` that `monitor.go` reads.  Absent
ids (`GuildID`, `WebhookID`) are the empty string, as in discordgo. -/
structure Message where
  content : List Char
  authorID : List Char
  authorIsBot : Bool
  webhookID : List Char
  channelID : List Char
  guildID : List Char

/-- The fields of a `Monitor` that drive gating, plus the one observable of
its handler the claims need: whether `Run` panics when invoked. -/
structure Monitor where
  enabled : Bool
  guildOnly : Bool
  ignoreWebhooks : Bool
  ignoreBots : Bool
  ignoreSelf : Bool
  runPanics : Bool

/-- The platform state the listener queries (`s.State`): the bot's own user id
and the guild/channel lookups, which either fail (`none`) or return a value.
Guilds and channels themselves carry no data the dispatch logic reads, so they
are modelled as `Unit`. -/
structure ListenerEnv where
  selfID : List Char
  guildLookup : List Char → Option Unit
  channelLookup : List Char → Option Unit

/-- The observables of one run of the listener closure:
which monitors were invoked (index in registration order, and the `Guild`
pointer passed in their context), whether a handler panic escaped the
function, and whether `bot.ErrorHandler` was called. -/
structure ListenerResult where
  invoked : List (Nat × Option Unit)
  panicEscaped : Bool
  errorHandlerCalled : Bool
deriving DecidableEq

/-- The per-monitor gates of `monitorListener` (monitor.go:67-97), in source
order: enabled; guild resolution — on a failed lookup the loop `continue`s,
i.e. the monitor is skipped no matter what its flags say; guildOnly; self;
bots; webhooks; channel resolution. -/
inductive StepRes where
  | skip
  | run (guild : Option Unit)

/-- Lines 71-78: `guild` starts out nil; a non-empty guild id is looked up and
a failed lookup takes the `continue` branch (`none` here); otherwise `guild`
is the lookup's result. -/
def resolveGuild (env : ListenerEnv) (msg : Message) : Option (Option Unit) :=
  if msg.guildID = [] then some none
  else
    match env.guildLookup msg.guildID with
    | none => none
    | some g => some (some g)

def monitorGates (env : ListenerEnv) (msg : Message) (mon : Monitor) : StepRes :=
  if mon.enabled = false then .skip else
  match resolveGuild env msg with
  | none => .skip
  | some guild =>
    if mon.guildOnly = true ∧ guild = none then .skip
    else if msg.authorID = env.selfID ∧ mon.ignoreSelf = true then .skip
    else if msg.authorIsBot = true ∧ mon.ignoreBots = true then .skip
    else if msg.webhookID ≠ [] ∧ mon.ignoreWebhooks = true then .skip
    else
      match env.channelLookup msg.channelID with
      | none => .skip
      | some _ => .run guild

/-- The `for _, monitor := range bot.Monitors` loop (monitor.go:66-108).
`bot.Monitors` lives outside `src/`; per the spec (§4.2) it is an ordered
collection iterated in registration order, modelled as a list.

The `defer`/`recover` at monitor.go:109-113 is only *registered* when
execution reaches it, i.e. after the loop has finished normally.  A panic
raised by `monitor.Run` inside the loop therefore unwinds with no recovery in
place: the remaining monitors are not visited, `bot.ErrorHandler` is not
called, and the panic escapes the listener.  On normal completion the deferred
`recover()` returns nil, so the error handler is again not called. -/
def listenerLoop (env : ListenerEnv) (msg : Message) :
    Nat → List Monitor → ListenerResult
  | _, [] => { invoked := [], panicEscaped := false, errorHandlerCalled := false }
  | i, mon :: rest =>
    match monitorGates env msg mon with
    | .skip => listenerLoop env msg (i + 1) rest
    | .run guild =>
      if mon.runPanics then
        { invoked := [(i, guild)], panicEscaped := true, errorHandlerCalled := false }
      else
        let r := listenerLoop env msg (i + 1) rest
        { r with invoked := (i, guild) :: r.invoked }

def monitorListener (env : ListenerEnv) (monitors : List Monitor) (msg : Message) :
    ListenerResult :=
  listenerLoop env msg 0 monitors

/-- The fields of a `Command` that `CommandHandlerMonitor` reads. -/
structure Command where
  name : List Char
  enabled : Bool
  ownerOnly : Bool
  guildOnly : Bool
deriving DecidableEq

/-- The bot state and external collaborators `CommandHandlerMonitor` consults.
`pfx` is the string returned by the injected `bot.Prefix` resolver for this
event, `lang` the string returned by `bot.Language`, `languages` the keys of
`bot.Languages`.  `parseArgsOK` is the boolean returned by `cctx.ParseArgs()`
and `cooldownOK` the `canRun` result of `bot.CheckCooldown`; both live outside
`src/` and are modelled from the spec as injected oracles (§4.4 steps 8 and
10). -/
structure BotCfg where
  pfx : List Char
  commands : List Command
  languages : List (List Char)
  lang : List Char
  ownerID : List Char
  commandTyping : Bool
  parseArgsOK : Bool
  cooldownOK : Bool

/-- The observables of one `CommandHandlerMonitor` run: the flag map and
cleaned content it computed, the command token and raw args (when reached),
the locale keys replied via `ReplyLocale`, the locale warning printout,
whether a typing indicator was sent, whether the command handler ran, whether
`bot.CommandsRan` was incremented, and whether the run panicked (the
out-of-range slice `content[len(prefix):]`). -/
structure DispatchResult where
  flags : FlagMap
  cleaned : List Char
  token : Option (List Char)
  args : List (List Char)
  replies : List (List Char)
  warned : Bool
  typingSent : Bool
  ran : Bool
  commandsRanInc : Bool
  panicked : Bool
deriving DecidableEq

def emptyResult : DispatchResult :=
  { flags := [], cleaned := [], token := none, args := [], replies := [],
    warned := false, typingSent := false, ran := false, commandsRanInc := false,
    panicked := false }

/-- Modelled from the spec: `bot.GetCommand` is not under `src/`; §4.3 defines
it as a case-insensitive exact-match lookup of the token against the
registered command names. -/
def getCommand (cmds : List Command) (tok : List Char) : Option Command :=
  cmds.find? (fun c => decide (lowerStr c.name = tok))

/-- The validation gates and everything after them (monitor.go:190-223), run
once the command is resolved and its locale found: disabled, ownerOnly
(against `bot.OwnerID`), guildOnly (against `ctx.Message.GuildID`), then
`ParseArgs`, the optional typing indicator, the cooldown check, and finally
the counter increment and handler invocation. -/
def chmPostLocale (cfg : BotCfg) (msg : Message) (cmd : Command)
    (r : DispatchResult) : DispatchResult :=
  if cmd.enabled = false then
    { r with replies := r.replies ++ [str "COMMAND_DISABLED"] }
  else if cmd.ownerOnly = true ∧ msg.authorID ≠ cfg.ownerID then
    { r with replies := r.replies ++ [str "COMMAND_OWNER_ONLY"] }
  else if cmd.guildOnly = true ∧ msg.guildID = [] then
    { r with replies := r.replies ++ [str "COMMAND_GUILD_ONLY"] }
  else if cfg.parseArgsOK = false then r
  else
    let r1 := if cfg.commandTyping then { r with typingSent := true } else r
    if cfg.cooldownOK = false then
      { r1 with replies := r1.replies ++ [str "COMMAND_COOLDOWN"] }
    else
      { r1 with commandsRanInc := true, ran := true }

/-- Embedding of `CommandHandlerMonitor` (monitor.go:123-223).  The prefix check uses the
original content; flags are then stripped, whitespace repaired and spaces
trimmed; `content[len(prefix):]` panics in Go when the cleaned content is
shorter than the prefix (`panicked` below); `strings.Split` always returns at
least one element, so the `len(split) < 1` guard never fires and an
empty-after-prefix text produces the empty command token. -/
def CommandHandlerMonitor (cfg : BotCfg) (msg : Message) : DispatchResult :=
  if hasPrefixL cfg.pfx msg.content then
    let fs := extractFlags msg.content
    let content := trimSpaces (collapseWS fs.2)
    let r0 := { emptyResult with flags := fs.1, cleaned := content }
    if content.length < cfg.pfx.length then { r0 with panicked := true }
    else
      match splitSpaces (content.drop cfg.pfx.length) with
      | [] => r0
      | s0 :: restArgs =>
        let input := lowerStr s0
        let r1 := { r0 with token := some input, args := restArgs }
        match getCommand cfg.commands input with
        | none => r1
        | some cmd =>
          if cfg.lang ∈ cfg.languages then chmPostLocale cfg msg cmd r1
          else { r1 with warned := true }
  else emptyResult

/-! ## Concrete instances used by the claim theorems below -/

def c1env : ListenerEnv :=
  { selfID := str "self", guildLookup := fun _ => none,
    channelLookup := fun _ => some () }

def c1msg : Message :=
  { content := str "hello", authorID := str "user", authorIsBot := false,
    webhookID := [], channelID := str "chan", guildID := [] }

def c1monA : Monitor :=
  { enabled := true, guildOnly := false, ignoreWebhooks := true,
    ignoreBots := true, ignoreSelf := true, runPanics := true }

def c1monB : Monitor :=
  { enabled := true, guildOnly := false, ignoreWebhooks := true,
    ignoreBots := true, ignoreSelf := true, runPanics := false }

def c3cfg : BotCfg :=
  { pfx := str "--go ", commands := [], languages := [str "en-US"],
    lang := str "en-US", ownerID := str "owner", commandTyping := false,
    parseArgsOK := true, cooldownOK := true }

def c3msg : Message :=
  { content := str "--go ping", authorID := str "user", authorIsBot := false,
    webhookID := [], channelID := str "chan", guildID := [] }

def c2env : ListenerEnv :=
  { selfID := str "self", guildLookup := fun _ => none,
    channelLookup := fun _ => some () }

def c2envOK : ListenerEnv :=
  { selfID := str "self", guildLookup := fun _ => some (),
    channelLookup := fun _ => some () }

def c2mon : Monitor :=
  { enabled := true, guildOnly := false, ignoreWebhooks := true,
    ignoreBots := true, ignoreSelf := true, runPanics := false }

def c2msg : Message :=
  { content := str "hello", authorID := str "user", authorIsBot := false,
    webhookID := [], channelID := str "chan", guildID := str "g1" }

def c2dmsg : Message :=
  { content := str "hello", authorID := str "user", authorIsBot := false,
    webhookID := [], channelID := str "chan", guildID := [] }

def c4cfg : BotCfg :=
  { pfx := str "!",
    commands := [{ name := str "ping", enabled := true, ownerOnly := false,
                   guildOnly := false }],
    languages := [str "en-US"], lang := str "en-US", ownerID := str "owner",
    commandTyping := false, parseArgsOK := true, cooldownOK := true }

def c4msg : Message :=
  { content := str "! --verbose", authorID := str "user", authorIsBot := false,
    webhookID := [], channelID := str "chan", guildID := [] }

/-- No two adjacent whitespace characters occur in the list. -/
def noWSRun : List Char → Bool
  | c :: d :: rest => !(isGoSpace c && isGoSpace d) && noWSRun (d :: rest)
  | _ => true

def c8cfg : BotCfg :=
  { pfx := str "!", commands := [], languages := [str "en-US"],
    lang := str "en-US", ownerID := str "owner", commandTyping := false,
    parseArgsOK := true, cooldownOK := true }

def c8msg : Message :=
  { content := str "!cmd  --flag=x   arg1", authorID := str "user",
    authorIsBot := false, webhookID := [], channelID := str "chan",
    guildID := [] }

def c8msgTab : Message :=
  { content := str "!cmd\t\targ\t", authorID := str "user",
    authorIsBot := false, webhookID := [], channelID := str "chan",
    guildID := [] }

def c9cmd : Command :=
  { name := str "ping", enabled := false, ownerOnly := false, guildOnly := false }

def c9cfg : BotCfg :=
  { pfx := str "!", commands := [c9cmd], languages := [str "en-US"],
    lang := str "en-US", ownerID := str "owner", commandTyping := false,
    parseArgsOK := true, cooldownOK := true }

def c9msg : Message :=
  { content := str "!ping", authorID := str "user", authorIsBot := false,
    webhookID := [], channelID := str "chan", guildID := [] }

/-! ## The fuel arguments are irrelevant

Every recursive step of `extractLoopF` and `collapseWSF` consumes at least one
character, so any fuel beyond the input length produces the same result; the
`length + 1` fuel used by `extractFlags` and `collapseWS` is therefore never
exhausted and the embeddings are total functions of the text alone. -/

theorem dropWhile_length_le (p : Char → Bool) (l : List Char) :
    (l.dropWhile p).length ≤ l.length := by
  induction l with
  | nil => simp
  | cons c rest ih =>
    rw [List.dropWhile_cons]
    split
    · exact le_trans ih (Nat.le_succ _)
    · simp

theorem collapseWSF_nil (fuel : Nat) : collapseWSF fuel [] = [] := by
  cases fuel <;> rfl

theorem scanQuoted_rest_length (isDelim : Char → Bool) :
    ∀ (n : Nat) (cs : List Char), cs.length ≤ n → ∀ cap r,
      scanQuoted isDelim cs = some (cap, r) → r.length ≤ cs.length := by
  intro n
  induction n with
  | zero =>
    intro cs hle cap r h
    have hnil : cs = [] := List.eq_nil_of_length_eq_zero (Nat.le_zero.mp hle)
    subst hnil
    simp [scanQuoted] at h
  | succ n ih =>
    intro cs hle cap r h
    cases cs with
    | nil => simp [scanQuoted] at h
    | cons c rest =>
      simp only [List.length_cons] at hle
      unfold scanQuoted at h
      by_cases hdelim : isDelim c = true
      · rw [if_pos hdelim] at h
        cases h
        simp
      · rw [if_neg hdelim] at h
        by_cases hbs : c = '\\'
        · rw [if_pos hbs] at h
          cases rest with
          | nil =>
            have h3 : (none : Option (List Char × List Char)) = some (cap, r) := h
            cases h3
          | cons d rest2 =>
            have h3 : (if d = '\n' then (none : Option (List Char × List Char))
                else match scanQuoted isDelim rest2 with
                  | some (cap, r) => some (c :: d :: cap, r)
                  | none => none) = some (cap, r) := h
            by_cases hnl : d = '\n'
            · rw [if_pos hnl] at h3
              cases h3
            · rw [if_neg hnl] at h3
              cases hrec : scanQuoted isDelim rest2 with
              | none =>
                rw [hrec] at h3
                have h4 : (none : Option (List Char × List Char)) = some (cap, r) := h3
                cases h4
              | some pr =>
                obtain ⟨cap2, r2⟩ := pr
                rw [hrec] at h3
                have h4 : some (c :: d :: cap2, r2) = some (cap, r) := h3
                cases h4
                have hsub := ih rest2 (by simp only [List.length_cons] at hle; omega) _ _ hrec
                simp only [List.length_cons] at hsub ⊢
                omega
        · rw [if_neg hbs] at h
          cases hrec : scanQuoted isDelim rest with
          | none =>
            rw [hrec] at h
            have h4 : (none : Option (List Char × List Char)) = some (cap, r) := h
            cases h4
          | some pr =>
            obtain ⟨cap2, r2⟩ := pr
            rw [hrec] at h
            have h4 : some (c :: cap2, r2) = some (cap, r) := h
            cases h4
            have hsub := ih rest (by omega) _ _ hrec
            simp only [List.length_cons] at hsub ⊢
            omega

theorem tryQuote_rest_length (isDelim : Char → Bool) (cs cap r : List Char)
    (h : tryQuote isDelim cs = some (cap, r)) : r.length < cs.length := by
  cases cs with
  | nil => simp [tryQuote] at h
  | cons c rest =>
    unfold tryQuote at h
    have h2 : (if isDelim c = true then scanQuoted isDelim rest else none) =
        some (cap, r) := h
    by_cases hd : isDelim c = true
    · rw [if_pos hd] at h2
      have := scanQuoted_rest_length isDelim rest.length rest le_rfl cap r h2
      simp only [List.length_cons]
      omega
    · rw [if_neg hd] at h2
      cases h2

theorem matchValue_rest_length (cs : List Char) (i : Nat) (cap r : List Char)
    (h : matchValue cs = some (i, cap, r)) : r.length ≤ cs.length := by
  unfold matchValue at h
  cases h1 : tryQuote (fun c => c = '"') cs with
  | some pr =>
    obtain ⟨cap2, r2⟩ := pr
    rw [h1] at h
    have h4 : some (0, cap2, r2) = some (i, cap, r) := h
    cases h4
    exact le_of_lt (tryQuote_rest_length _ cs _ _ h1)
  | none =>
    rw [h1] at h
    cases h2 : tryQuote (fun c => c = Char.ofNat 39) cs with
    | some pr =>
      obtain ⟨cap2, r2⟩ := pr
      rw [h2] at h
      have h4 : some (1, cap2, r2) = some (i, cap, r) := h
      cases h4
      exact le_of_lt (tryQuote_rest_length _ cs _ _ h2)
    | none =>
      rw [h2] at h
      cases h3 : tryQuote (fun c => c = '“' || c = '”') cs with
      | some pr =>
        obtain ⟨cap2, r2⟩ := pr
        rw [h3] at h
        have h4 : some (2, cap2, r2) = some (i, cap, r) := h
        cases h4
        exact le_of_lt (tryQuote_rest_length _ cs _ _ h3)
      | none =>
        rw [h3] at h
        cases h5 : tryQuote (fun c => c = '‘' || c = '’') cs with
        | some pr =>
          obtain ⟨cap2, r2⟩ := pr
          rw [h5] at h
          have h4 : some (3, cap2, r2) = some (i, cap, r) := h
          cases h4
          exact le_of_lt (tryQuote_rest_length _ cs _ _ h5)
        | none =>
          rw [h5] at h
          rcases hsp : List.span isNameChar cs with ⟨v, r2⟩
          rw [hsp] at h
          cases v with
          | nil =>
            have h4 : (none : Option (Nat × List Char × List Char)) =
                some (i, cap, r) := h
            cases h4
          | cons x xs =>
            have h4 : some (4, x :: xs, r2) = some (i, cap, r) := h
            cases h4
            have hspan := List.span_eq_take_drop isNameChar cs
            rw [hsp] at hspan
            injection hspan with hv hr
            subst hr
            exact dropWhile_length_le _ _

theorem matchName_rest_length (cs name r : List Char)
    (h : matchName cs = some (name, r)) : r.length < cs.length := by
  cases cs with
  | nil => simp [matchName] at h
  | cons c rest =>
    unfold matchName at h
    have h1 : (if isWordChar c = true then
        match List.span isNameChar rest with
        | ([], _) => none
        | (run, r0) => some (c :: run, r0)
      else none) = some (name, r) := h
    by_cases hw : isWordChar c = true
    · rw [if_pos hw] at h1
      rcases hsp : List.span isNameChar rest with ⟨v, r2⟩
      rw [hsp] at h1
      cases v with
      | nil =>
        have h3 : (none : Option (List Char × List Char)) = some (name, r) := h1
        cases h3
      | cons x xs =>
        have h3 : some (c :: x :: xs, r2) = some (name, r) := h1
        cases h3
        have hspan := List.span_eq_take_drop isNameChar rest
        rw [hsp] at hspan
        injection hspan with hv hr
        subst hr
        simp only [List.length_cons]
        exact Nat.lt_succ_of_le (dropWhile_length_le _ _)
    · rw [if_neg hw] at h1
      cases h1

theorem matchAfterIntro_rest_length (cs : List Char) (name : List Char)
    (groups : List (List Char)) (r : List Char)
    (h : matchAfterIntro cs = some (name, groups, r)) : r.length < cs.length := by
  unfold matchAfterIntro at h
  cases hm : matchName cs with
  | none =>
    rw [hm] at h
    have h2 : (none : Option (List Char × List (List Char) × List Char)) =
        some (name, groups, r) := h
    cases h2
  | some pr =>
    obtain ⟨name0, rest0⟩ := pr
    rw [hm] at h
    have hn := matchName_rest_length cs name0 rest0 hm
    cases rest0 with
    | nil =>
      have h2 : some (name0, subGroups none, ([] : List Char)) =
          some (name, groups, r) := h
      cases h2
      exact hn
    | cons e vrest =>
      have h2 : (if e = '=' then
          match matchValue vrest with
          | some (i, cap, r2) => some (name0, subGroups (some (i, cap)), r2)
          | none => some (name0, subGroups none, e :: vrest)
        else some (name0, subGroups none, e :: vrest)) =
          some (name, groups, r) := h
      by_cases he : e = '='
      · rw [if_pos he] at h2
        cases hv : matchValue vrest with
        | some pr2 =>
          obtain ⟨i, cap, r2⟩ := pr2
          rw [hv] at h2
          have h3 : some (name0, subGroups (some (i, cap)), r2) =
              some (name, groups, r) := h2
          cases h3
          have hval := matchValue_rest_length vrest i cap _ hv
          simp only [List.length_cons] at hn
          omega
        | none =>
          rw [hv] at h2
          have h3 : some (name0, subGroups none, e :: vrest) =
              some (name, groups, r) := h2
          cases h3
          exact hn
      · rw [if_neg he] at h2
        have h3 : some (name0, subGroups none, e :: vrest) =
            some (name, groups, r) := h2
        cases h3
        exact hn

theorem matchFlagAt_rest_length (c : Char) (cs : List Char) (name : List Char)
    (groups : List (List Char)) (r : List Char)
    (h : matchFlagAt c cs = some (name, groups, r)) : r.length < cs.length := by
  unfold matchFlagAt at h
  by_cases h1 : c = '—'
  · rw [if_pos h1] at h
    exact matchAfterIntro_rest_length cs name groups r h
  · rw [if_neg h1] at h
    by_cases h2 : c = '-'
    · rw [if_pos h2] at h
      cases cs with
      | nil =>
        have h3 : (none : Option (List Char × List (List Char) × List Char)) =
            some (name, groups, r) := h
        cases h3
      | cons c2 rest2 =>
        have h3 : (if c2 = '-' then matchAfterIntro rest2 else none) =
            some (name, groups, r) := h
        by_cases h4 : c2 = '-'
        · rw [if_pos h4] at h3
          have := matchAfterIntro_rest_length rest2 name groups r h3
          simp only [List.length_cons]
          omega
        · rw [if_neg h4] at h3
          cases h3
    · rw [if_neg h2] at h
      cases h

theorem extractLoopF_fuel_irrelevant :
    ∀ (f1 f2 : Nat) (flags : FlagMap) (cs : List Char),
      cs.length < f1 → cs.length < f2 →
      extractLoopF f1 flags cs = extractLoopF f2 flags cs := by
  intro f1
  induction f1 with
  | zero =>
    intro f2 flags cs h1 h2
    omega
  | succ f1 ih =>
    intro f2 flags cs h1 h2
    cases cs with
    | nil =>
      cases f2 with
      | zero => omega
      | succ f2 => rfl
    | cons c rest =>
      simp only [List.length_cons] at h1 h2
      cases f2 with
      | zero => omega
      | succ f2 =>
        simp only [extractLoopF]
        cases hm : matchFlagAt c rest with
        | none =>
          simp only [hm]
          rw [ih f2 flags rest (by omega) (by omega)]
        | some nm =>
          obtain ⟨name, groups, r2⟩ := nm
          have hlt := matchFlagAt_rest_length c rest name groups r2 hm
          simp only [hm]
          exact ih f2 (flagLoop name flags groups) r2 (by omega) (by omega)

theorem collapseWSF_fuel_irrelevant :
    ∀ (f1 f2 : Nat) (cs : List Char), cs.length ≤ f1 → cs.length ≤ f2 →
      collapseWSF f1 cs = collapseWSF f2 cs := by
  intro f1
  induction f1 with
  | zero =>
    intro f2 cs h1 h2
    have hnil : cs = [] := List.eq_nil_of_length_eq_zero (Nat.le_zero.mp h1)
    subst hnil
    rw [collapseWSF_nil, collapseWSF_nil]
  | succ f1 ih =>
    intro f2 cs h1 h2
    cases cs with
    | nil => rw [collapseWSF_nil, collapseWSF_nil]
    | cons c rest =>
      cases rest with
      | nil =>
        cases f2 with
        | zero => simp at h2
        | succ f2 => rfl
      | cons d r2 =>
        simp only [List.length_cons] at h1 h2
        cases f2 with
        | zero => omega
        | succ f2 =>
          simp only [collapseWSF]
          have hd1 : (d :: r2).length ≤ f1 := by simp only [List.length_cons]; omega
          have hd2 : (d :: r2).length ≤ f2 := by simp only [List.length_cons]; omega
          have hw1 : (List.dropWhile isGoSpace (d :: r2)).length ≤ f1 :=
            le_trans (dropWhile_length_le _ _) hd1
          have hw2 : (List.dropWhile isGoSpace (d :: r2)).length ≤ f2 :=
            le_trans (dropWhile_length_le _ _) hd2
          rw [ih f2 (List.dropWhile isGoSpace (d :: r2)) hw1 hw2,
            ih f2 (d :: r2) hd1 hd2]

/-! ## Helper lemmas about the map embedding -/

theorem mapInsert_mapInsert (m : FlagMap) (k v w : List Char) :
    mapInsert (mapInsert m k v) k w = mapInsert m k w := by
  induction m with
  | nil => simp [mapInsert]
  | cons p rest ih =>
    obtain ⟨k0, v0⟩ := p
    by_cases h : k0 = k
    · simp [mapInsert, h]
    · simp [mapInsert, h, ih]

theorem mapLookup_mapInsert (m : FlagMap) (k v : List Char) :
    mapLookup (mapInsert m k v) k = some v := by
  induction m with
  | nil => simp [mapInsert, mapLookup]
  | cons p rest ih =>
    obtain ⟨k0, v0⟩ := p
    by_cases h : k0 = k
    · simp [mapInsert, h, mapLookup]
    · simp [mapInsert, h, mapLookup, ih]

/-! ## Claim C1 -/

/-- Claim C1, evaluated at the failing input: two enabled, eligible monitors,
the first of whose handlers panics.  Because the `defer`/`recover` of
`monitorListener` is registered only after the loop, the panic escapes
unrecovered: monitor B (registered after A) is never invoked and the bot's
error handler is never called — contradicting the claimed catch-and-continue
behaviour. -/
theorem monitor_panic_escapes_dispatch :
    monitorListener c1env [c1monA, c1monB] c1msg =
      { invoked := [(0, none)], panicEscaped := true, errorHandlerCalled := false } := by
  decide

/-! ## Claim C3 -/

/-- Claim C3, evaluated at the failing input: with prefix `"--go "` and message
`"--go ping"`, the flag pass removes the flag-shaped `--go` inside the prefix
and the cleaned content `"ping"` has length 4 < 5 = len(prefix), so the Go
slice `content[len(prefix):]` is out of bounds and the handler panics —
refuting the claim that the slice is always in bounds. -/
theorem chm_flag_shaped_prefix_out_of_bounds :
    CommandHandlerMonitor c3cfg c3msg =
      { emptyResult with
        flags := [(str "go", str "go")],
        cleaned := str "ping",
        panicked := true } := by
  decide

/-! ## Claim C5 -/

/-- Claim C5: tokenizing a message containing the flag
`--msg="he said \"hi\""` stores under key `msg` exactly the raw captured
substring `he said \"hi\"` — escape sequences preserved verbatim, no
unescaping — and the whole matched flag substring is removed from the text. -/
theorem quoted_flag_raw_capture :
    extractFlags (str "--msg=\"he said \\\"hi\\\"\"") =
      ([(str "msg", str "he said \\\"hi\\\"")], []) := by
  decide

/-! ## Claim C6 -/

/-- Claim C6: a flag token with no `=value` part participates in none of the
five value capture groups, and the callback's loop over `sub[2:]` then maps
the flag's name to itself (first conjunct, for every flag map and name); in
particular `--verbose` yields `flags["verbose"] == "verbose"` (second
conjunct). -/
theorem boolean_flag_maps_to_own_name :
    (∀ (flags : FlagMap) (name : List Char),
        flagLoop name flags [[], [], [], [], []] = mapInsert flags name name) ∧
    extractFlags (str "--verbose") = ([(str "verbose", str "verbose")], []) := by
  constructor
  · intro flags name
    simp [flagLoop, mapInsert_mapInsert]
  · decide

/-! ## Claim C7 -/

/-- Claim C7: matches are processed left to right and a later insertion for
the same key overwrites the earlier one (first conjunct: looking up a key
right after inserting it returns the inserted value, whatever was there
before); concretely, `--op=1 --op=2` leaves `flags["op"] == "2"` and both
matched substrings are removed from the text (second conjunct). -/
theorem duplicate_flags_last_wins :
    (∀ (m : FlagMap) (k v : List Char), mapLookup (mapInsert m k v) k = some v) ∧
    extractFlags (str "--op=1 --op=2") = ([(str "op", str "2")], [' ']) :=
  ⟨mapLookup_mapInsert, by decide⟩

/-! ## Claim C2 -/

theorem listenerLoop_guild_fail (env : ListenerEnv) (msg : Message)
    (hg : msg.guildID ≠ []) (hl : env.guildLookup msg.guildID = none) :
    ∀ (i : Nat) (ms : List Monitor),
      listenerLoop env msg i ms =
        { invoked := [], panicEscaped := false, errorHandlerCalled := false } := by
  intro i ms
  induction ms generalizing i with
  | nil => rfl
  | cons mon rest ih =>
    have hres : resolveGuild env msg = none := by
      simp [resolveGuild, hg, hl]
    have hgate : monitorGates env msg mon = .skip := by
      simp [monitorGates, hres]
    simp [listenerLoop, hgate, ih]

theorem monitorGates_run_guild (env : ListenerEnv) (msg : Message) (mon : Monitor)
    (g : Option Unit) (h : monitorGates env msg mon = .run g) :
    resolveGuild env msg = some g := by
  unfold monitorGates at h
  split at h
  · cases h
  · split at h
    · cases h
    · next guild heq =>
      split at h
      · cases h
      · split at h
        · cases h
        · split at h
          · cases h
          · split at h
            · cases h
            · split at h
              · cases h
              · cases h
                exact heq

theorem listenerLoop_dm_guild_none (env : ListenerEnv) (msg : Message)
    (hg : msg.guildID = []) :
    ∀ (i : Nat) (ms : List Monitor) (p : Nat × Option Unit),
      p ∈ (listenerLoop env msg i ms).invoked → p.2 = none := by
  intro i ms
  induction ms generalizing i with
  | nil =>
    intro p hp
    simp [listenerLoop] at hp
  | cons mon rest ih =>
    intro p hp
    rcases hgate : monitorGates env msg mon with _ | guild
    · rw [listenerLoop, hgate] at hp
      exact ih (i + 1) p hp
    · have hguild : guild = none := by
        have := monitorGates_run_guild env msg mon guild hgate
        simp [resolveGuild, hg] at this
        exact this.symm
      rw [listenerLoop, hgate] at hp
      subst hguild
      by_cases hpan : mon.runPanics
      · simp [hpan] at hp
        simp [hp]
      · simp [hpan] at hp
        rcases hp with hp | hp
        · simp [hp]
        · exact ih (i + 1) p hp

/-- Claim C2 counterexample: a message carrying guild id `"g1"` whose guild
lookup fails, and a single enabled monitor with `guildOnly == false` that
passes every other gate (witnessed by the last conjunct: the very same
monitor and message are dispatched when the lookup succeeds).  With the
failing lookup the loop `continue`s, so the monitor is *not* invoked with a
nil guild as the claim states — it is skipped entirely. -/
theorem guild_lookup_failure_counterexample :
    c2mon.guildOnly = false ∧
    c2msg.guildID ≠ [] ∧
    c2env.guildLookup c2msg.guildID = none ∧
    (monitorListener c2env [c2mon] c2msg).invoked = [] ∧
    (monitorListener c2envOK [c2mon] c2msg).invoked = [(0, some ())] := by
  decide

/-- Claim C2 (amended): for every incoming event that carries a guild id whose
guild lookup fails, every monitor — `guildOnly` or not — is skipped: no
monitor is invoked for that event.  A monitor is invoked with a nil guild only
when the event carries no guild id (second conjunct: on such events every
invocation carries `guild = none`). -/
theorem guild_lookup_failure_skips_all (env : ListenerEnv) (ms : List Monitor)
    (msg : Message) :
    (msg.guildID ≠ [] → env.guildLookup msg.guildID = none →
      (monitorListener env ms msg).invoked = []) ∧
    (msg.guildID = [] →
      ∀ p ∈ (monitorListener env ms msg).invoked, p.2 = none) := by
  constructor
  · intro hg hl
    rw [monitorListener, listenerLoop_guild_fail env msg hg hl]
  · intro hg p hp
    exact listenerLoop_dm_guild_none env msg hg 0 ms p hp

theorem guild_lookup_failure_skips_all_witness :
    (monitorListener c2env [c2mon] c2msg).invoked = [] ∧
    ∀ p ∈ (monitorListener c2env [c2mon] c2dmsg).invoked, p.2 = none := by
  constructor
  · exact (guild_lookup_failure_skips_all c2env [c2mon] c2msg).1 (by decide) (by decide)
  · exact (guild_lookup_failure_skips_all c2env [c2mon] c2dmsg).2 (by decide)

/-! ## Claim C10 -/

/-- Claim C10: the flag-name group `(\w[\w-]+)` needs at least two characters,
so a token `--c` with a single word character `c` produces no flag-map entry
and is left unchanged in the text. -/
theorem short_flag_name_not_matched (c : Char) (h : isWordChar c = true) :
    extractFlags ['-', '-', c] = ([], ['-', '-', c]) := by
  have hdash : ¬ (c = '-') := by
    rintro rfl
    exact absurd h (by decide)
  have hmdash : ¬ (c = '—') := by
    rintro rfl
    exact absurd h (by decide)
  simp [extractFlags, extractLoopF, matchFlagAt, matchAfterIntro, matchName,
    List.span, List.span.loop, h, hdash, hmdash]

theorem short_flag_name_not_matched_witness :
    isWordChar 'c' = true ∧ extractFlags ['-', '-', 'c'] = ([], ['-', '-', 'c']) :=
  ⟨by decide, short_flag_name_not_matched 'c' (by decide)⟩

/-! ## Claim C4 -/

/-- Claim C4: when the cleaned content is exactly the prefix (e.g. a message of
only the prefix, or the prefix plus flags), the text after prefix-stripping is
empty, `strings.Split` turns it into the single empty token, the command
lookup of the empty token fails, and the handler returns with no command
invoked, no reply, no counter increment and no panic.  (`len(split) < 1` never
fires — `Split` always returns at least one element — so the abort happens via
the failed lookup; `getCommand` is modelled from the spec, and the third
hypothesis states that no registered command resolves the empty token.) -/
theorem chm_empty_after_strip (cfg : BotCfg) (msg : Message)
    (hpre : hasPrefixL cfg.pfx msg.content = true)
    (hlen : (trimSpaces (collapseWS (extractFlags msg.content).2)).length =
      cfg.pfx.length)
    (hget : getCommand cfg.commands [] = none) :
    (CommandHandlerMonitor cfg msg).ran = false ∧
    (CommandHandlerMonitor cfg msg).replies = [] ∧
    (CommandHandlerMonitor cfg msg).panicked = false ∧
    (CommandHandlerMonitor cfg msg).commandsRanInc = false ∧
    (CommandHandlerMonitor cfg msg).token = some [] := by
  have hnl : ¬ ((trimSpaces (collapseWS (extractFlags msg.content).2)).length <
      cfg.pfx.length) := by omega
  have hdrop : (trimSpaces (collapseWS (extractFlags msg.content).2)).drop
      cfg.pfx.length = [] := by
    rw [← hlen]
    exact List.drop_length _
  simp [CommandHandlerMonitor, hpre, hdrop, hnl, hget, splitSpaces, lowerStr,
    emptyResult]

theorem chm_empty_after_strip_witness :
    (CommandHandlerMonitor c4cfg c4msg).ran = false ∧
    (CommandHandlerMonitor c4cfg c4msg).replies = [] ∧
    (CommandHandlerMonitor c4cfg c4msg).panicked = false ∧
    (CommandHandlerMonitor c4cfg c4msg).commandsRanInc = false ∧
    (CommandHandlerMonitor c4cfg c4msg).token = some [] :=
  chm_empty_after_strip c4cfg c4msg (by decide) (by decide) (by decide)

/-! ## Claim C8 -/

theorem collapseWSF_cons (fuel : Nat) (c : Char) (rest : List Char) :
    ∃ t, collapseWSF (fuel + 1) (c :: rest) = c :: t := by
  cases rest with
  | nil => exact ⟨[], rfl⟩
  | cons d r2 =>
    simp only [collapseWSF]
    split
    · split
      · exact ⟨_, rfl⟩
      · exact ⟨_, rfl⟩
    · exact ⟨_, rfl⟩

theorem dropWhile_head_false (p : Char → Bool) (l : List Char) :
    ∀ d t, l.dropWhile p = d :: t → p d = false := by
  induction l with
  | nil =>
    intro d t h
    cases h
  | cons c rest ih =>
    intro d t h
    rw [List.dropWhile_cons] at h
    by_cases hc : p c = true
    · rw [if_pos hc] at h
      exact ih d t h
    · rw [if_neg hc] at h
      cases h
      simpa using hc

theorem noWSRun_cons (c : Char) (xs : List Char) (h1 : noWSRun xs = true)
    (h2 : ∀ d t, xs = d :: t → (isGoSpace c && isGoSpace d) = false) :
    noWSRun (c :: xs) = true := by
  cases xs with
  | nil => rfl
  | cons d t => simp [noWSRun, h2 d t rfl, h1]

theorem noWSRun_collapseWSF :
    ∀ (fuel : Nat) (cs : List Char), cs.length ≤ fuel →
      noWSRun (collapseWSF fuel cs) = true := by
  intro fuel
  induction fuel with
  | zero =>
    intro cs h
    have hnil : cs = [] := List.eq_nil_of_length_eq_zero (Nat.le_zero.mp h)
    subst hnil
    rfl
  | succ fuel ih =>
    intro cs hlen
    cases cs with
    | nil => rfl
    | cons c rest =>
      cases rest with
      | nil => rfl
      | cons d r2 =>
        simp only [List.length_cons] at hlen
        have hlen1 : (d :: r2).length ≤ fuel := by
          simp only [List.length_cons]
          omega
        have hfuel : 1 ≤ fuel := le_trans (by simp) hlen1
        simp only [collapseWSF]
        by_cases hc : isGoSpace c = true
        · rw [if_pos hc]
          by_cases hd : isGoSpace d = true
          · rw [if_pos hd]
            have hlen2 : (List.dropWhile isGoSpace (d :: r2)).length ≤ fuel :=
              le_trans (dropWhile_length_le _ _) hlen1
            apply noWSRun_cons _ _ (ih _ hlen2)
            intro e t het
            cases hws : List.dropWhile isGoSpace (d :: r2) with
            | nil =>
              rw [hws, collapseWSF_nil] at het
              cases het
            | cons e0 t0 =>
              obtain ⟨f2, rfl⟩ : ∃ f2, fuel = f2 + 1 := ⟨fuel - 1, by omega⟩
              obtain ⟨t1, hteq⟩ := collapseWSF_cons f2 e0 t0
              rw [hws, hteq] at het
              cases het
              have hhead := dropWhile_head_false isGoSpace (d :: r2) _ _ hws
              simp [hhead]
          · rw [if_neg hd]
            apply noWSRun_cons _ _ (ih _ hlen1)
            intro e t het
            obtain ⟨f2, rfl⟩ : ∃ f2, fuel = f2 + 1 := ⟨fuel - 1, by omega⟩
            obtain ⟨t1, hteq⟩ := collapseWSF_cons f2 d r2
            rw [hteq] at het
            cases het
            simp [hd]
        · rw [if_neg hc]
          apply noWSRun_cons _ _ (ih _ hlen1)
          intro e t het
          simp [hc]

theorem noWSRun_collapseWS (cs : List Char) : noWSRun (collapseWS cs) = true :=
  noWSRun_collapseWSF (cs.length + 1) cs (Nat.le_succ _)

/-- Claim C8 counterexample: for the message `"!cmd\t\targ\t"` with prefix
`"!"` the run of two tabs is collapsed to a single *tab* — `$1`, the run's
first character — not to a space, and the trailing tab is not trimmed
(`strings.Trim(s, " ")` trims spaces only), so the cleaned text is
`"!cmd\targ\t"` and not the `"!cmd arg"` the claim's general sentence
predicts. -/
theorem whitespace_collapse_counterexample :
    (CommandHandlerMonitor c8cfg c8msgTab).cleaned = str "!cmd\targ\t" ∧
    str "!cmd\targ\t" ≠ str "!cmd arg" := by
  decide

/-- Claim C8 (amended): after flag removal, every run of two or more
consecutive whitespace characters is collapsed into a single copy of its
first character — hence no two adjacent whitespace characters survive (first
conjunct) — and leading/trailing *spaces* are trimmed; in particular
tokenizing `"!cmd  --flag=x   arg1"` with prefix `"!"` yields cleaned text
`"!cmd arg1"` with exactly one (space) separator, command token `"cmd"`,
argument list `["arg1"]` and `flags["flag"] == "x"` (second conjunct). -/
theorem whitespace_collapse_amended :
    (∀ cs : List Char, noWSRun (collapseWS cs) = true) ∧
    ((CommandHandlerMonitor c8cfg c8msg).cleaned = str "!cmd arg1" ∧
     (CommandHandlerMonitor c8cfg c8msg).token = some (str "cmd") ∧
     (CommandHandlerMonitor c8cfg c8msg).args = [str "arg1"] ∧
     mapLookup (CommandHandlerMonitor c8cfg c8msg).flags (str "flag") =
       some (str "x")) :=
  ⟨noWSRun_collapseWS, by decide⟩

/-! ## Claim C9 -/

/-- Claim C9: once the command is resolved and its locale found
(`chmPostLocale` is invoked exactly there), the gates run in the fixed order
disabled, ownerOnly, guildOnly; the first failing gate appends exactly one
localized reply — COMMAND_DISABLED, COMMAND_OWNER_ONLY (author differs from
the configured owner), COMMAND_GUILD_ONLY (no guild id on the event) — and on
any gate failure the handler is not run and `CommandsRan` is not
incremented. -/
theorem validation_gates_order (cfg : BotCfg) (msg : Message) (cmd : Command)
    (r : DispatchResult) (hrep : r.replies = []) :
    (cmd.enabled = false →
      chmPostLocale cfg msg cmd r = { r with replies := [str "COMMAND_DISABLED"] } ∧
      (chmPostLocale cfg msg cmd r).ran = r.ran ∧
      (chmPostLocale cfg msg cmd r).commandsRanInc = r.commandsRanInc) ∧
    (cmd.enabled = true → cmd.ownerOnly = true → msg.authorID ≠ cfg.ownerID →
      chmPostLocale cfg msg cmd r = { r with replies := [str "COMMAND_OWNER_ONLY"] } ∧
      (chmPostLocale cfg msg cmd r).ran = r.ran ∧
      (chmPostLocale cfg msg cmd r).commandsRanInc = r.commandsRanInc) ∧
    (cmd.enabled = true → (cmd.ownerOnly = false ∨ msg.authorID = cfg.ownerID) →
      cmd.guildOnly = true → msg.guildID = [] →
      chmPostLocale cfg msg cmd r = { r with replies := [str "COMMAND_GUILD_ONLY"] } ∧
      (chmPostLocale cfg msg cmd r).ran = r.ran ∧
      (chmPostLocale cfg msg cmd r).commandsRanInc = r.commandsRanInc) := by
  refine ⟨fun h1 => ?_, fun h1 h2 h3 => ?_, fun h1 h2 h3 h4 => ?_⟩
  · simp [chmPostLocale, h1, hrep]
  · simp [chmPostLocale, h1, h2, h3, hrep]
  · rcases h2 with h2 | h2
    · simp [chmPostLocale, h1, h2, h3, h4, hrep]
    · simp [chmPostLocale, h1, h2, h3, h4, hrep]

theorem validation_gates_order_witness :
    chmPostLocale c9cfg c9msg c9cmd emptyResult =
      { emptyResult with replies := [str "COMMAND_DISABLED"] } ∧
    (chmPostLocale c9cfg c9msg c9cmd emptyResult).ran = emptyResult.ran ∧
    (chmPostLocale c9cfg c9msg c9cmd emptyResult).commandsRanInc =
      emptyResult.commandsRanInc :=
  (validation_gates_order c9cfg c9msg c9cmd emptyResult rfl).1 rfl

end Sapphire
